import Mathlib

/-!
Shallow embedding of the YouTube region demand collector
(src/region_demand.py) together with proofs about its behavior.

Numeric model: Python floats are modelled as real numbers (rationals where
no logarithm is involved) and Python ints as integers or naturals.
External effects (the remote API responses, the langdetect library, the
random jitter, the wall clock) are modelled as explicit inputs, and the
persisted JSON state files as explicit values threaded through the
functions that read and write them.
-/

namespace RegionDemand

/-! ## Constants (src/region_demand.py, lines 33-56) -/

def TARGET_COUNT : ℕ := 6
def MAX_RESULTS : ℕ := 25
def MAX_RANK : ℕ := 10

noncomputable def W_RANK : ℝ := 0.30
noncomputable def W_POP : ℝ := 0.45
noncomputable def W_LOCAL : ℝ := 0.25

/-! ## Rounding

Python round(x, n) rounds half to even at the n-th decimal digit; it is
modelled exactly on the real numbers. -/

/-- Round half to even on the reals, matching the Python built-in round
applied to an integral target position. -/
noncomputable def roundHalfEven (x : ℝ) : ℤ :=
  if Int.fract x = 1 / 2 then (if Even ⌊x⌋ then ⌊x⌋ else ⌊x⌋ + 1) else round x

/-- Python round(x, ndigits) on the real model. -/
noncomputable def pyRound (ndigits : ℕ) (x : ℝ) : ℝ :=
  (roundHalfEven (x * 10 ^ ndigits) : ℝ) / 10 ^ ndigits

theorem le_roundHalfEven (n : ℤ) (x : ℝ) (h : (n : ℝ) ≤ x) : n ≤ roundHalfEven x := by
  unfold roundHalfEven
  split
  · have hn : n ≤ ⌊x⌋ := Int.le_floor.mpr h
    split
    · exact hn
    · omega
  · rw [round_eq]
    exact Int.le_floor.mpr (by linarith)

theorem roundHalfEven_le (n : ℤ) (x : ℝ) (h : x ≤ (n : ℝ)) : roundHalfEven x ≤ n := by
  unfold roundHalfEven
  split
  · rename_i hf
    have hx : x = (⌊x⌋ : ℝ) + 1 / 2 := by
      have hfr : x - ⌊x⌋ = 1 / 2 := hf
      linarith
    have hlt : (⌊x⌋ : ℝ) < (n : ℝ) := by linarith
    have hfl : ⌊x⌋ + 1 ≤ n := by exact_mod_cast hlt
    split
    · omega
    · omega
  · rw [round_eq]
    have h2 : ⌊x + 1 / 2⌋ ≤ ⌊(n : ℝ) + 1 / 2⌋ := Int.floor_le_floor (by linarith)
    have h3 : ⌊(n : ℝ) + 1 / 2⌋ = n := by
      rw [add_comm, Int.floor_add_int]
      norm_num
    omega

theorem pyRound_nonneg (k : ℕ) (x : ℝ) (h : 0 ≤ x) : 0 ≤ pyRound k x := by
  unfold pyRound
  apply div_nonneg _ (by positivity)
  have := le_roundHalfEven 0 (x * 10 ^ k) (by push_cast; positivity)
  exact_mod_cast this

theorem pyRound_le_one (k : ℕ) (x : ℝ) (h : x ≤ 1) : pyRound k x ≤ 1 := by
  unfold pyRound
  rw [div_le_one (by positivity)]
  have hx : x * 10 ^ k ≤ (((10 : ℤ) ^ k : ℤ) : ℝ) := by
    push_cast
    calc x * 10 ^ k ≤ 1 * 10 ^ k := by
          apply mul_le_mul_of_nonneg_right h (by positivity)
      _ = 10 ^ k := one_mul _
  have := roundHalfEven_le ((10 : ℤ) ^ k) (x * 10 ^ k) hx
  exact_mod_cast this

theorem roundHalfEven_intCast (n : ℤ) : roundHalfEven (n : ℝ) = n := by
  unfold roundHalfEven
  rw [Int.fract_intCast, if_neg (by norm_num)]
  exact round_intCast n

theorem pyRound_eq_of_mul (k : ℕ) (x : ℝ) (n : ℤ) (h : x * 10 ^ k = (n : ℝ)) :
    pyRound k x = (n : ℝ) / 10 ^ k := by
  unfold pyRound
  rw [h, roundHalfEven_intCast]

/-! ## Uniqueness (src/region_demand.py, lines 215-225)

The try/except around the logarithms is omitted from the model: under the
guard N_regions > 1 both log arguments are positive, so math.log never
raises there and the except branch is dead. -/

/-- The uniqueness score computed by compute_uniqueness_tf_idf. -/
noncomputable def compute_uniqueness_tf_idf (occurrence : ℤ) (N_regions : ℕ) : ℝ :=
  if N_regions ≤ 1 then 1.0
  else
    let idf := Real.log (((N_regions : ℝ) + 1) / (1 + ((max 0 occurrence : ℤ) : ℝ)))
    let denom := Real.log ((N_regions : ℝ) + 1)
    if denom ≤ 0 then 1.0
    else max 0.0 (idf / denom)

/-- Modelled from the spec: the TF-IDF reference definition of uniqueness,
written from the specification text, to be compared with the source
function. -/
noncomputable def uniqueness_reference (occ : ℤ) (N : ℕ) : ℝ :=
  if N ≤ 1 then 1.0
  else max 0 (Real.log (((N : ℝ) + 1) / (1 + (occ : ℝ))) / Real.log ((N : ℝ) + 1))

theorem log_Np1_pos (N : ℕ) (hN : 1 < N) : 0 < Real.log ((N : ℝ) + 1) := by
  apply Real.log_pos
  have : (1 : ℝ) < (N : ℝ) := by exact_mod_cast hN
  linarith

/-- On the range 0 ≤ occ ≤ N with N > 1, the max with 0 is inert and the
function is the plain log ratio. -/
theorem compute_uniqueness_eq_ratio (occ : ℤ) (N : ℕ) (h0 : 0 ≤ occ)
    (hN : 1 < N) (hocc : occ ≤ (N : ℤ)) :
    compute_uniqueness_tf_idf occ N
      = Real.log (((N : ℝ) + 1) / (1 + (occ : ℝ))) / Real.log ((N : ℝ) + 1) := by
  have hden := log_Np1_pos N hN
  have hmax : max 0 occ = occ := max_eq_right h0
  have hoccR : (occ : ℝ) ≤ (N : ℝ) := by exact_mod_cast hocc
  have h1p : (0 : ℝ) < 1 + (occ : ℝ) := by
    have : (0 : ℝ) ≤ (occ : ℝ) := by exact_mod_cast h0
    linarith
  have hratio : (1 : ℝ) ≤ ((N : ℝ) + 1) / (1 + (occ : ℝ)) := by
    rw [le_div_iff₀ h1p]
    linarith
  have hlog : 0 ≤ Real.log (((N : ℝ) + 1) / (1 + (occ : ℝ))) := Real.log_nonneg hratio
  unfold compute_uniqueness_tf_idf
  rw [if_neg (by omega), hmax, if_neg (not_le.mpr hden)]
  have h00 : (0.0 : ℝ) = 0 := by norm_num
  rw [h00]
  exact max_eq_right (div_nonneg hlog (le_of_lt hden))

/-- Claim C1: the uniqueness function agrees with the TF-IDF reference definition
(1.0 when N ≤ 1, otherwise max(0, ln((N+1)/(1+occ)) / ln(N+1)) for occ ≥ 0);
for fixed N > 1 it is strictly decreasing in occ over 0 ≤ occ ≤ N, equals 0
at occ = N and equals 1 at occ = 0. -/
theorem C1_uniqueness_tf_idf :
    (∀ (occ : ℤ) (N : ℕ), 0 ≤ occ →
      compute_uniqueness_tf_idf occ N = uniqueness_reference occ N) ∧
    (∀ (N : ℕ) (o1 o2 : ℤ), 1 < N → 0 ≤ o1 → o1 < o2 → o2 ≤ (N : ℤ) →
      compute_uniqueness_tf_idf o2 N < compute_uniqueness_tf_idf o1 N) ∧
    (∀ N : ℕ, 1 < N → compute_uniqueness_tf_idf (N : ℤ) N = 0) ∧
    (∀ N : ℕ, 1 < N → compute_uniqueness_tf_idf 0 N = 1) := by
  refine ⟨?_, ?_, ?_, ?_⟩
  · intro occ N h0
    unfold compute_uniqueness_tf_idf uniqueness_reference
    by_cases hN : N ≤ 1
    · rw [if_pos hN, if_pos hN]
    · have hden := log_Np1_pos N (by omega)
      rw [if_neg hN, if_neg hN, if_neg (not_le.mpr hden), max_eq_right h0]
      norm_num
  · intro N o1 o2 hN h1 h12 h2N
    have hden := log_Np1_pos N hN
    rw [compute_uniqueness_eq_ratio o1 N h1 hN (by omega),
        compute_uniqueness_eq_ratio o2 N (by omega) hN h2N]
    apply (div_lt_div_iff_of_pos_right hden).mpr
    apply Real.log_lt_log
    · apply div_pos (by positivity)
      have h02 : (0 : ℝ) ≤ (o2 : ℝ) := by exact_mod_cast (by omega : (0 : ℤ) ≤ o2)
      linarith
    · apply div_lt_div_of_pos_left (by positivity)
      · have h01 : (0 : ℝ) ≤ (o1 : ℝ) := by exact_mod_cast h1
        linarith
      · have h12R : (o1 : ℝ) < (o2 : ℝ) := by exact_mod_cast h12
        linarith
  · intro N hN
    rw [compute_uniqueness_eq_ratio (N : ℤ) N (by omega) hN le_rfl]
    have : ((N : ℝ) + 1) / (1 + ((N : ℤ) : ℝ)) = 1 := by
      push_cast
      rw [div_eq_one_iff_eq (by positivity)]
      ring
    rw [this, Real.log_one, zero_div]
  · intro N hN
    rw [compute_uniqueness_eq_ratio 0 N le_rfl hN (by omega)]
    have hden := log_Np1_pos N hN
    have : ((N : ℝ) + 1) / (1 + ((0 : ℤ) : ℝ)) = (N : ℝ) + 1 := by
      push_cast
      ring_nf
    rw [this, div_self (ne_of_gt hden)]

/-- Witness for C1 at concrete inputs. -/
theorem C1_uniqueness_tf_idf_witness :
    compute_uniqueness_tf_idf 2 5 = uniqueness_reference 2 5 ∧
    compute_uniqueness_tf_idf 3 5 < compute_uniqueness_tf_idf 2 5 ∧
    compute_uniqueness_tf_idf 5 5 = 0 ∧
    compute_uniqueness_tf_idf 0 5 = 1 :=
  ⟨C1_uniqueness_tf_idf.1 2 5 (by decide),
   C1_uniqueness_tf_idf.2.1 5 2 3 (by decide) (by decide) (by decide) (by decide),
   C1_uniqueness_tf_idf.2.2.1 5 (by decide),
   C1_uniqueness_tf_idf.2.2.2 5 (by decide)⟩

/-! ## Round-robin concept selection (src/region_demand.py, lines 192-212)

The rr_state.json file is modelled by threading the stored next_idx value
in and out: the function returns the picked concepts together with the
next_idx that _save_rr_state persists (unchanged when the early return for
an empty concept list fires, since that path saves nothing). -/

/-- The body of the picking loop: starting at index i, pick the next k
concepts, wrapping modulo the list length, and return them together with
the final index. -/
def rrPick (all_concepts : List String) (i : ℕ) : ℕ → List String × ℕ
  | 0 => ([], i)
  | k + 1 =>
    let rest := rrPick all_concepts ((i + 1) % all_concepts.length) k
    (all_concepts.getD i "" :: rest.1, rest.2)

/-- select_concepts_round_robin: the picked list and the persisted next_idx. -/
def select_concepts_round_robin (all_concepts : List String) (next_idx : ℕ)
    (target_count : ℕ) : List String × ℕ :=
  let n := all_concepts.length
  if n = 0 then ([], next_idx)
  else rrPick all_concepts (next_idx % n) (min target_count n)

theorem rrPick_eq (all_concepts : List String) (hne : all_concepts ≠ []) :
    ∀ (k i : ℕ), i < all_concepts.length →
      rrPick all_concepts i k
        = ((List.range k).map
            (fun j => all_concepts.getD ((i + j) % all_concepts.length) ""),
           (i + k) % all_concepts.length) := by
  intro k
  induction k with
  | zero =>
    intro i hi
    simp [rrPick, Nat.mod_eq_of_lt hi]
  | succ k ih =>
    intro i hi
    have hn : 0 < all_concepts.length := List.length_pos.mpr hne
    have hi1 : (i + 1) % all_concepts.length < all_concepts.length :=
      Nat.mod_lt _ hn
    have ihs := ih ((i + 1) % all_concepts.length) hi1
    simp only [rrPick, ihs]
    rw [Prod.mk.injEq]
    refine ⟨?_, ?_⟩
    · rw [List.range_succ_eq_map]
      simp only [List.map_cons, List.map_map]
      rw [List.cons.injEq]
      refine ⟨?_, ?_⟩
      · rw [add_zero, Nat.mod_eq_of_lt hi]
      · apply List.map_congr_left
        intro j _
        simp only [Function.comp_apply]
        rw [Nat.mod_add_mod]
        congr 2
        omega
    · rw [Nat.mod_add_mod]
      congr 1
      omega

/-- Claim C3: round-robin selection returns the empty selection for an empty
concept list; otherwise it returns exactly min(target_count, n) concepts
taken circularly from start = cursor mod n and persists the cursor
(start + min(target_count, n)) mod n; on [a, b, c, d, e] with cursor 3 and
target_count 3 the selection is [d, e, a] with new cursor 1. -/
theorem C3_round_robin :
    (∀ (next_idx target_count : ℕ),
      select_concepts_round_robin [] next_idx target_count = ([], next_idx)) ∧
    (∀ (l : List String) (next_idx target_count : ℕ), l ≠ [] →
      select_concepts_round_robin l next_idx target_count
        = ((List.range (min target_count l.length)).map
            (fun j => l.getD ((next_idx % l.length + j) % l.length) ""),
           (next_idx % l.length + min target_count l.length) % l.length)) ∧
    select_concepts_round_robin ["a", "b", "c", "d", "e"] 3 3
      = (["d", "e", "a"], 1) := by
  refine ⟨?_, ?_, ?_⟩
  · intro next_idx target_count
    simp [select_concepts_round_robin]
  · intro l next_idx target_count hne
    have hn : 0 < l.length := List.length_pos.mpr hne
    unfold select_concepts_round_robin
    rw [if_neg (by omega)]
    exact rrPick_eq l hne _ _ (Nat.mod_lt _ hn)
  · decide

/-- Witness for C3 at concrete inputs. -/
theorem C3_round_robin_witness :
    select_concepts_round_robin ["a", "b", "c"] 7 5
      = ((List.range (min 5 3)).map
          (fun j => ["a", "b", "c"].getD ((7 % 3 + j) % 3) ""), (7 % 3 + min 5 3) % 3) :=
  C3_round_robin.2.1 ["a", "b", "c"] 7 5 (by decide)

/-! ## Quota ledger day rollover (src/region_demand.py, lines 128-134)

The quota_usage dict is modelled as a partial map from day-key strings to
integers; the current Pacific-time day key computed with pytz is an
explicit input. The function returns the updated map (the returned day key
is the input key and is not repeated here). -/

/-- reset_quota_if_new_day: insert the current day key with value 0 when
absent, otherwise leave the mapping untouched. -/
def reset_quota_if_new_day (quota_day_key : String) (quota_usage : String → Option ℤ) :
    String → Option ℤ :=
  if quota_usage quota_day_key = none then
    fun k => if k = quota_day_key then some 0 else quota_usage k
  else quota_usage

/-- Claim C7: the day-rollover step inserts the current day key with value 0 when
absent and leaves every other entry unchanged; on a ledger whose only key
is the yesterday key, the result holds exactly the yesterday key with its
original value and the today key with value 0. -/
theorem C7_quota_rollover :
    (∀ (key : String) (q : String → Option ℤ), q key = none →
      reset_quota_if_new_day key q key = some 0) ∧
    (∀ (key : String) (q : String → Option ℤ) (k : String), k ≠ key →
      reset_quota_if_new_day key q k = q k) ∧
    (∀ (key : String) (q : String → Option ℤ), q key ≠ none →
      reset_quota_if_new_day key q = q) ∧
    (∀ (yk tk : String) (v : ℤ), yk ≠ tk →
      let q : String → Option ℤ := fun k => if k = yk then some v else none
      let q2 := reset_quota_if_new_day tk q
      q2 tk = some 0 ∧ q2 yk = some v ∧
      ∀ k, k ≠ yk → k ≠ tk → q2 k = none) := by
  refine ⟨?_, ?_, ?_, ?_⟩
  · intro key q h
    simp [reset_quota_if_new_day, h]
  · intro key q k hk
    unfold reset_quota_if_new_day
    split
    · simp [hk]
    · rfl
  · intro key q h
    simp [reset_quota_if_new_day, h]
  · intro yk tk v hne
    have hq : (if tk = yk then some v else none) = none := by
      rw [if_neg (fun h => hne h.symm)]
    refine ⟨?_, ?_, ?_⟩
    · simp [reset_quota_if_new_day, hq]
    · simp [reset_quota_if_new_day, hq, hne]
    · intro k h1 h2
      simp [reset_quota_if_new_day, hq, h1, h2]

/-- Witness for C7 at concrete day keys. -/
theorem C7_quota_rollover_witness :
    (let q : String → Option ℤ := fun k => if k = "2026-10-11" then some 42 else none
     let q2 := reset_quota_if_new_day "2026-10-12" q
     q2 "2026-10-12" = some 0 ∧ q2 "2026-10-11" = some 42 ∧
     ∀ k, k ≠ "2026-10-11" → k ≠ "2026-10-12" → q2 k = none) :=
  C7_quota_rollover.2.2.2 "2026-10-11" "2026-10-12" 42 (by decide)

/-! ## Candidate collection per region (src/region_demand.py, lines 339-403)

Remote responses are modelled as the lists of video identifiers they carry
(items without a videoId are dropped before the model, matching the
`if vid` guards). For one region, query_results holds one id list per
query string and trending_items the ids of the mostPopular fetch. -/

/-- One append step of the collection loops: append vid unless it is
already present (the `if vid not in vids_ordered` pattern). -/
def append_new (acc : List String) (vid : String) : List String :=
  if vid ∈ acc then acc else acc ++ [vid]

/-- The ordered list vids_ordered after the query searches and the
mostPopular appends for one region. -/
def collect_vids_ordered (query_results : List (List String))
    (trending_items : List String) : List String :=
  trending_items.foldl append_new
    (query_results.foldl (fun acc res => res.foldl append_new acc) [])

/-- region_top_lists[region]: the ordered candidates truncated to MAX_RANK. -/
def region_top_list (query_results : List (List String))
    (trending_items : List String) : List String :=
  (collect_vids_ordered query_results trending_items).take MAX_RANK

/-- The row assembly enumerate(top_list, start=1) (line 489): pair each
video with its 1-based rank. -/
def rank_rows (start : ℕ) : List String → List (String × ℕ)
  | [] => []
  | v :: rest => (v, start) :: rank_rows (start + 1) rest

/-- Modelled from the spec: first-appearance-order deduplication, keeping
the first occurrence of each identifier. -/
def dedup_first : List String → List String
  | [] => []
  | v :: rest => v :: dedup_first (rest.filter (fun x => decide (x ≠ v)))
termination_by l => l.length
decreasing_by
  simp only [List.length_cons]
  exact Nat.lt_succ_of_le (List.length_filter_le _ _)

theorem dedup_first_cons (v : String) (t : List String) :
    dedup_first (v :: t) = v :: dedup_first (t.filter (fun x => decide (x ≠ v))) := by
  rw [dedup_first]

theorem foldl_append_new_eq (l : List String) :
    ∀ acc : List String,
      l.foldl append_new acc
        = acc ++ dedup_first (l.filter (fun x => decide (x ∉ acc))) := by
  induction l with
  | nil => intro acc; simp [dedup_first]
  | cons v rest ih =>
    intro acc
    rw [List.foldl_cons]
    by_cases hv : v ∈ acc
    · rw [show append_new acc v = acc from if_pos hv, ih acc, List.filter_cons]
      simp [hv]
    · rw [show append_new acc v = acc ++ [v] from if_neg hv, ih (acc ++ [v])]
      have hfc : (v :: rest).filter (fun x => decide (x ∉ acc))
          = v :: rest.filter (fun x => decide (x ∉ acc)) := by
        simp [List.filter_cons, hv]
      rw [hfc, dedup_first_cons, List.filter_filter]
      have hpt : rest.filter (fun x => decide (x ≠ v) && decide (x ∉ acc))
          = rest.filter (fun x => decide (x ∉ acc ++ [v])) := by
        apply List.filter_congr
        intro x _
        by_cases h1 : x ∈ acc <;> by_cases h2 : x = v <;> simp [h1, h2]
      rw [hpt, List.append_assoc, List.singleton_append]

theorem foldl_foldl_append_new (qrs : List (List String)) :
    ∀ acc : List String,
      qrs.foldl (fun acc res => res.foldl append_new acc) acc
        = qrs.flatten.foldl append_new acc := by
  induction qrs with
  | nil => intro acc; simp
  | cons r rest ih =>
    intro acc
    simp only [List.foldl_cons, List.flatten_cons, List.foldl_append]
    exact ih _

theorem collect_vids_ordered_eq (qrs : List (List String)) (tr : List String) :
    collect_vids_ordered qrs tr = dedup_first (qrs.flatten ++ tr) := by
  unfold collect_vids_ordered
  rw [foldl_foldl_append_new, ← List.foldl_append, foldl_append_new_eq]
  have hfilter : (qrs.flatten ++ tr).filter (fun x => decide (x ∉ ([] : List String)))
      = qrs.flatten ++ tr := by
    apply List.filter_eq_self.mpr
    intro x _
    simp
  rw [hfilter, List.nil_append]

theorem rank_rows_getElem (t : List String) :
    ∀ s i : ℕ, (rank_rows s t)[i]? = (t[i]?).map (fun v => (v, s + i)) := by
  induction t with
  | nil => intro s i; simp [rank_rows]
  | cons v rest ih =>
    intro s i
    cases i with
    | zero => simp [rank_rows]
    | succ j =>
      simp only [rank_rows, List.getElem?_cons_succ]
      rw [ih (s + 1) j]
      have : s + 1 + j = s + (j + 1) := by omega
      rw [this]

/-- Claim C8: a region candidate list is the first MAX_RANK distinct video
identifiers in first-appearance order (queries in order, duplicates
skipped, then unseen trending items), it never exceeds MAX_RANK entries,
and the assembled row at position i carries rank i + 1. -/
theorem C8_top_k :
    (∀ (qrs : List (List String)) (tr : List String),
      region_top_list qrs tr = (dedup_first (qrs.flatten ++ tr)).take MAX_RANK) ∧
    (∀ (qrs : List (List String)) (tr : List String),
      (region_top_list qrs tr).length ≤ MAX_RANK) ∧
    (∀ (qrs : List (List String)) (tr : List String) (i : ℕ),
      (rank_rows 1 (region_top_list qrs tr))[i]?
        = ((region_top_list qrs tr)[i]?).map (fun v => (v, i + 1))) := by
  refine ⟨?_, ?_, ?_⟩
  · intro qrs tr
    unfold region_top_list
    rw [collect_vids_ordered_eq]
  · intro qrs tr
    unfold region_top_list
    rw [List.length_take]
    exact min_le_left _ _
  · intro qrs tr i
    rw [rank_rows_getElem]
    have : 1 + i = i + 1 := by omega
    rw [this]

/-! ## Cross-region collection and the trend boost
(src/region_demand.py, lines 340-403 and 241-246)

In main, trending_set is created once per concept, before the region loop,
and every mostPopular item of every region is added to it; the same set is
later passed to compute_scores_for_videos for all rows of all regions. The
Python set is modelled as a duplicate-free list, since only membership is
consumed. -/

structure RegionFetch where
  searchResults : List (List String)
  trendingResults : List String
deriving DecidableEq

/-- One region iteration of the collection loop: build vids_ordered from
the query searches, then walk the mostPopular items, adding each to the
shared trending set and appending unseen ones to vids_ordered. -/
def collect_region_step (trending_set : List String) (rf : RegionFetch) :
    List String × List String :=
  let vids1 := rf.searchResults.foldl (fun acc res => res.foldl append_new acc) []
  rf.trendingResults.foldl
    (fun (p : List String × List String) vid => (append_new p.1 vid, append_new p.2 vid))
    (vids1, trending_set)

/-- The collection phase of main for one concept: the per-region top lists
in region order, together with the trending_set shared across regions.
The sharing is taken directly from the source: trending_set = set() is
executed once per concept at line 342, before the for region loop opening
at line 344; line 394 adds every mostPopular item of every region to that
one set; and line 547 passes the same set to compute_scores_for_videos
for the rows of all regions. -/
def collect_concept (regions : List (String × RegionFetch)) :
    List (String × List String) × List String :=
  regions.foldl
    (fun acc r =>
      let step := collect_region_step acc.2 r.2
      (acc.1 ++ [(r.1, step.1.take MAX_RANK)], step.2))
    ([], [])

/-- trend_boost as computed at line 245. -/
noncomputable def trend_boost (vid : String) (trending_set : List String) : ℝ :=
  1.0 + (if vid ∈ trending_set then 0.10 else 0.0)

theorem mem_foldl_append_new (v : String) (l : List String) :
    ∀ acc : List String, v ∈ l.foldl append_new acc ↔ v ∈ acc ∨ v ∈ l := by
  induction l with
  | nil => intro acc; simp
  | cons x rest ih =>
    intro acc
    rw [List.foldl_cons, ih]
    have hmem : v ∈ append_new acc x ↔ v ∈ acc ∨ v = x := by
      unfold append_new
      split
      · rename_i hx
        constructor
        · exact Or.inl
        · rintro (h | h)
          · exact h
          · rw [h]; exact hx
      · simp
    rw [hmem, List.mem_cons]
    tauto

theorem pair_foldl_snd (l : List String) :
    ∀ p : List String × List String,
      (l.foldl (fun p vid => (append_new p.1 vid, append_new p.2 vid)) p).2
        = l.foldl append_new p.2 := by
  induction l with
  | nil => intro p; rfl
  | cons x rest ih => intro p; rw [List.foldl_cons, List.foldl_cons, ih]

theorem collect_region_step_snd (ts : List String) (rf : RegionFetch) :
    (collect_region_step ts rf).2 = rf.trendingResults.foldl append_new ts := by
  unfold collect_region_step
  rw [pair_foldl_snd]

theorem collect_concept_snd (regions : List (String × RegionFetch)) :
    ∀ acc : List (String × List String) × List String,
      (regions.foldl
        (fun acc r =>
          let step := collect_region_step acc.2 r.2
          (acc.1 ++ [(r.1, step.1.take MAX_RANK)], step.2)) acc).2
        = regions.foldl (fun ts r => r.2.trendingResults.foldl append_new ts) acc.2 := by
  induction regions with
  | nil => intro acc; rfl
  | cons r rest ih =>
    intro acc
    rw [List.foldl_cons, List.foldl_cons, ih]
    rw [collect_region_step_snd]

theorem mem_trending_fold (v : String) (regions : List (String × RegionFetch)) :
    ∀ ts : List String,
      v ∈ regions.foldl (fun ts r => r.2.trendingResults.foldl append_new ts) ts
        ↔ v ∈ ts ∨ ∃ r ∈ regions, v ∈ r.2.trendingResults := by
  induction regions with
  | nil => intro ts; simp
  | cons r rest ih =>
    intro ts
    rw [List.foldl_cons, ih, mem_foldl_append_new]
    simp only [List.mem_cons]
    constructor
    · rintro (⟨h | h⟩ | ⟨s, hs, hv⟩)
      · exact Or.inl h
      · exact Or.inr ⟨r, Or.inl rfl, h⟩
      · exact Or.inr ⟨s, Or.inr hs, hv⟩
    · rintro (h | ⟨s, hs | hs, hv⟩)
      · exact Or.inl (Or.inl h)
      · subst hs; exact Or.inl (Or.inr hv)
      · exact Or.inr ⟨s, hs, hv⟩

/-- Claim C2 amended: the trend boost of a scored (video, region) row is 1.10
exactly when the video identifier belongs to the concept-wide trending
set, which is the union of the trending fetches of all regions processed
for the concept, and 1.00 otherwise; a video trending only in a different
region therefore also receives the boost. -/
theorem C2_trend_boost_amended :
    (∀ (regions : List (String × RegionFetch)) (v : String),
      v ∈ (collect_concept regions).2 ↔ ∃ r ∈ regions, v ∈ r.2.trendingResults) ∧
    (∀ (v : String) (ts : List String),
      (v ∈ ts → trend_boost v ts = 1.10) ∧ (v ∉ ts → trend_boost v ts = 1.00)) := by
  constructor
  · intro regions v
    unfold collect_concept
    rw [collect_concept_snd, mem_trending_fold]
    simp
  · intro v ts
    constructor
    · intro h
      rw [trend_boost, if_pos h]
      norm_num
    · intro h
      rw [trend_boost, if_neg h]
      norm_num

/-- Witness for the amended C2 at concrete inputs. -/
theorem C2_trend_boost_amended_witness :
    trend_boost "x" ["x"] = 1.10 ∧ trend_boost "x" [] = 1.00 ∧
    ("x" ∈ (collect_concept [("A", ⟨[], ["x"]⟩)]).2
      ↔ ∃ r ∈ [(("A" : String), (⟨[], ["x"]⟩ : RegionFetch))], "x" ∈ r.2.trendingResults) :=
  ⟨(C2_trend_boost_amended.2 "x" ["x"]).1 (by decide),
   (C2_trend_boost_amended.2 "x" []).2 (by decide),
   C2_trend_boost_amended.1 [("A", ⟨[], ["x"]⟩)] "x"⟩

/-! ## Retrying remote call executor (src/region_demand.py, lines 92-110)

A remote call is modelled as a function from the 1-based attempt number to
the outcome of that attempt, and the random.uniform(0, 0.5) draw as a
function from the attempt number to the drawn jitter. The trace records
the returned or raised outcome, the list of sleep durations in order, and
the number of attempts performed. The source has two except clauses
(HttpError and Exception) whose bodies are identical apart from the log
text; the model keeps one error branch and never inspects the failure
value, which is exactly what the source does. -/

/-- A failure raised by a remote call: an HttpError carrying its response
status and whether the API reported quota exhaustion, or any other
exception. -/
inductive RemoteFailure where
  | httpError (status : Option ℕ) (quotaExceeded : Bool)
  | otherError
deriving DecidableEq

inductive ExecOutcome (α : Type) where
  | success (a : α)
  | failure (e : RemoteFailure)
  | unreachable
deriving DecidableEq

structure ExecTrace (α : Type) where
  result : ExecOutcome α
  sleeps : List ℝ
  attempts : ℕ

/-- The retry loop of safe_execute. The for loop runs attempts
1..max_retries; remaining counts the iterations left, and fuel 0
corresponds to the trailing raise RuntimeError, unreachable from the entry
point when max_retries is at least 1. -/
noncomputable def safeExecuteGo {α : Type} (op : ℕ → Except RemoteFailure α)
    (jitter : ℕ → ℝ) (max_retries : ℕ) : ℕ → ℕ → ℝ → ExecTrace α
  | 0, _, _ => ⟨ExecOutcome.unreachable, [], 0⟩
  | remaining + 1, attempt, backoff =>
    match op attempt with
    | Except.ok a => ⟨ExecOutcome.success a, [], 1⟩
    | Except.error e =>
      if attempt = max_retries then ⟨ExecOutcome.failure e, [], 1⟩
      else
        let rest := safeExecuteGo op jitter max_retries remaining (attempt + 1) (backoff * 2)
        ⟨rest.result, (backoff + jitter attempt) :: rest.sleeps, rest.attempts + 1⟩

/-- safe_execute with its defaults max_retries = 5, initial_backoff = 1.0. -/
noncomputable def safe_execute {α : Type} (op : ℕ → Except RemoteFailure α)
    (jitter : ℕ → ℝ) (max_retries : ℕ) (initial_backoff : ℝ) : ExecTrace α :=
  safeExecuteGo op jitter max_retries max_retries 1 initial_backoff

/-- Claim C5: an operation failing transiently on the first two attempts and
succeeding on the third makes the executor sleep exactly twice, the first
sleep in [1.0, 1.5) and the second in [2.0, 2.5) given jitter in [0, 0.5),
and return the success; an operation failing on all 5 attempts has its
failure propagated after the 5th attempt with exactly the 4 earlier
sleeps. -/
theorem C5_executor :
    (∀ (α : Type) (op : ℕ → Except RemoteFailure α) (jitter : ℕ → ℝ) (a : α)
      (e1 e2 : RemoteFailure),
      op 1 = Except.error e1 → op 2 = Except.error e2 → op 3 = Except.ok a →
      (∀ t, 0 ≤ jitter t ∧ jitter t < 0.5) →
      (safe_execute op jitter 5 1.0).result = ExecOutcome.success a ∧
      (safe_execute op jitter 5 1.0).sleeps = [1.0 + jitter 1, 2.0 + jitter 2] ∧
      1.0 ≤ 1.0 + jitter 1 ∧ 1.0 + jitter 1 < 1.5 ∧
      2.0 ≤ 2.0 + jitter 2 ∧ 2.0 + jitter 2 < 2.5) ∧
    (∀ (α : Type) (op : ℕ → Except RemoteFailure α) (jitter : ℕ → ℝ)
      (e : ℕ → RemoteFailure),
      (∀ t, op t = Except.error (e t)) →
      (safe_execute op jitter 5 1.0).result = ExecOutcome.failure (e 5) ∧
      (safe_execute op jitter 5 1.0).sleeps.length = 4) := by
  constructor
  · intro α op jitter a e1 e2 h1 h2 h3 hj
    have htrace : safe_execute op jitter 5 1.0
        = ⟨ExecOutcome.success a, [1.0 + jitter 1, 1.0 * 2 + jitter 2], 3⟩ := by
      simp only [safe_execute, safeExecuteGo, h1, h2, h3]
      norm_num
    rw [htrace]
    have hj1 := hj 1
    have hj2 := hj 2
    refine ⟨rfl, ?_, by linarith [hj1.1], by linarith [hj1.2], by linarith [hj2.1],
      by linarith [hj2.2]⟩
    show [1.0 + jitter 1, 1.0 * 2 + jitter 2] = [1.0 + jitter 1, 2.0 + jitter 2]
    norm_num
  · intro α op jitter e hop
    have htrace : safe_execute op jitter 5 1.0
        = ⟨ExecOutcome.failure (e 5),
           [1.0 + jitter 1, 1.0 * 2 + jitter 2, 1.0 * 2 * 2 + jitter 3,
            1.0 * 2 * 2 * 2 + jitter 4], 5⟩ := by
      simp only [safe_execute, safeExecuteGo, hop 1, hop 2, hop 3, hop 4, hop 5]
      norm_num
    rw [htrace]
    exact ⟨rfl, rfl⟩

/-- Witness for C5 at a concrete operation and zero jitter. -/
theorem C5_executor_witness :
    (safe_execute
        (fun t => if t ≥ 3 then Except.ok (42 : ℕ)
                  else Except.error RemoteFailure.otherError)
        (fun _ => 0) 5 1.0).result = ExecOutcome.success 42 ∧
    (safe_execute
        (fun _ => (Except.error RemoteFailure.otherError : Except RemoteFailure ℕ))
        (fun _ => 0) 5 1.0).sleeps.length = 4 :=
  ⟨(C5_executor.1 ℕ
      (fun t => if t ≥ 3 then Except.ok (42 : ℕ)
                else Except.error RemoteFailure.otherError)
      (fun _ => 0) 42 RemoteFailure.otherError RemoteFailure.otherError
      rfl rfl rfl (fun t => by norm_num)).1,
   (C5_executor.2 ℕ
      (fun _ => (Except.error RemoteFailure.otherError : Except RemoteFailure ℕ))
      (fun _ => 0) (fun _ => RemoteFailure.otherError) (fun t => rfl)).2⟩

/-- Claim C4 counterexample: an operation that always fails with a
remote-reported quota-exhaustion HttpError is nevertheless retried like
any other failure: the executor performs all 5 attempts and 4 backoff
sleeps before propagating, instead of reporting upward immediately with
no retries. -/
theorem C4_quota_counterexample :
    (safe_execute
        (fun _ => (Except.error (RemoteFailure.httpError (some 403) true)
          : Except RemoteFailure ℕ))
        (fun _ => 0) 5 1.0).attempts = 5 ∧
    (safe_execute
        (fun _ => (Except.error (RemoteFailure.httpError (some 403) true)
          : Except RemoteFailure ℕ))
        (fun _ => 0) 5 1.0).sleeps.length = 4 ∧
    (safe_execute
        (fun _ => (Except.error (RemoteFailure.httpError (some 403) true)
          : Except RemoteFailure ℕ))
        (fun _ => 0) 5 1.0).result
      = ExecOutcome.failure (RemoteFailure.httpError (some 403) true) := by
  have htrace : safe_execute
      (fun _ => (Except.error (RemoteFailure.httpError (some 403) true)
        : Except RemoteFailure ℕ))
      (fun _ => (0 : ℝ)) 5 1.0
      = ⟨ExecOutcome.failure (RemoteFailure.httpError (some 403) true),
         [1.0 + 0, 1.0 * 2 + 0, 1.0 * 2 * 2 + 0, 1.0 * 2 * 2 * 2 + 0], 5⟩ := by
    simp only [safe_execute, safeExecuteGo]
    norm_num
  rw [htrace]
  exact ⟨rfl, rfl, rfl⟩

/-- Claim C4 amended: quota-exhaustion failures receive no special handling: for
every failure value, quota-exhaustion HttpErrors included, an operation
that always raises it is retried with backoff up to the full 5 attempts
and only then propagated, with 4 sleeps; nothing in the executor or the
run aborts early on a quota-exhaustion failure. -/
theorem C4_uniform_failure_handling :
    ∀ (α : Type) (e : RemoteFailure) (jitter : ℕ → ℝ),
      (safe_execute (fun _ => (Except.error e : Except RemoteFailure α)) jitter 5 1.0).result
        = ExecOutcome.failure e ∧
      (safe_execute (fun _ => (Except.error e : Except RemoteFailure α)) jitter 5 1.0).attempts
        = 5 ∧
      (safe_execute (fun _ => (Except.error e : Except RemoteFailure α)) jitter 5 1.0).sleeps.length
        = 4 := by
  intro α e jitter
  have htrace : safe_execute (fun _ => (Except.error e : Except RemoteFailure α)) jitter 5 1.0
      = ⟨ExecOutcome.failure e,
         [1.0 + jitter 1, 1.0 * 2 + jitter 2, 1.0 * 2 * 2 + jitter 3,
          1.0 * 2 * 2 * 2 + jitter 4], 5⟩ := by
    simp only [safe_execute, safeExecuteGo]
    norm_num
  rw [htrace]
  exact ⟨rfl, rfl, rfl⟩

/-! ## Locality hint assembly (src/region_demand.py, lines 484-530)

The language detection library is external; the probability mass it
assigns to the target language on the sampled text is an oracle input
detectProb, and the availability flag hasLangdetect stands for the
module-level import probe. All hint arithmetic is rational, so it is
modelled over the rationals and stays executable. -/

/-- Python truthiness of an optional string: false for None and the empty
string. -/
def truthyS : Option String → Bool
  | none => false
  | some s => decide (s ≠ "")

/-- Python str.upper(), modelled characterwise (the identifiers compared
in the source, region and country codes, are ASCII). -/
def pyUpper (s : String) : String := ⟨s.data.map Char.toUpper⟩

/-- Python str.lower(), modelled characterwise (language codes are
ASCII). -/
def pyLower (s : String) : String := ⟨s.data.map Char.toLower⟩

/-- Python str.startswith. -/
def pyStartsWith (s pre : String) : Bool := pre.data.isPrefixOf s.data

/-- The channel-country condition at line 499: ch_id truthy, a truthy
stored country, and country.upper() equal to region.upper(). -/
def channel_country_matches (region : String) (chId : Option String)
    (channel_country : String → Option String) : Bool :=
  match chId with
  | none => false
  | some cid =>
    if cid = "" then false
    else
      match channel_country cid with
      | none => false
      | some ctry => decide (ctry ≠ "") && decide (pyUpper ctry = pyUpper region)

/-- lang_prob_matches (lines 112-122) with the langdetect call abstracted:
the guards on empty text, missing target language and absent langdetect
are those of the source, and detectProb is what the library would return
for the target language. -/
def lang_prob_matches (text : String) (target_lang : Option String)
    (hasLangdetect : Bool) (detectProb : ℚ) : ℚ :=
  if text = "" ∨ truthyS target_lang = false ∨ hasLangdetect = false then 0
  else detectProb

/-- The declared-language condition at line 505: default_lang and
target_lang truthy and default_lang.lower() starting with target_lang. -/
def default_lang_matches (defaultLang targetLang : Option String) : Bool :=
  match defaultLang, targetLang with
  | some dl, some tl =>
    decide (dl ≠ "") && decide (tl ≠ "") && pyStartsWith (pyLower dl) tl
  | _, _ => false

structure LocalHint where
  local_hint : ℚ
  local_hint_source : String
deriving DecidableEq

/-- The local hint assembly for one (video, region) row
(lines 497-521). -/
def compute_local_hint (region : String) (chId : Option String)
    (channel_country : String → Option String) (defaultLang targetLang : Option String)
    (title desc : String) (hasLangdetect : Bool) (detectProb : ℚ) : LocalHint :=
  let cmatch := channel_country_matches region chId channel_country
  let channel_match : ℚ := if cmatch then 1.0 else 0.0
  let src1 : String := if cmatch then "channel_country" else ""
  let sample_text := (title ++ " " ++ desc).trim
  let lang_match_prob : ℚ :=
    if default_lang_matches defaultLang targetLang then 0.95
    else if sample_text ≠ "" then
      lang_prob_matches sample_text targetLang hasLangdetect detectProb
    else 0.0
  let src2 : String :=
    if default_lang_matches defaultLang targetLang then
      if src1 = "" then "default_lang" else src1
    else
      if src1 = "" then
        (if sample_text ≠ "" ∧ hasLangdetect then "langdetect" else "none")
      else src1
  let hint : ℚ :=
    if channel_match ≥ 1.0 then 1.0
    else
      let h := min 0.9 (lang_match_prob * 0.9)
      if truthyS defaultLang then max h 0.6 else h
  ⟨hint, src2⟩

/-- Claim C10: the locality hint is exactly 1.0 when the declared channel
country matches the region, and otherwise at most 0.9 (language evidence
is scaled by 0.9 and capped at 0.9, with a 0.6 floor whenever a declared
language is present); in particular no language evidence alone can place
the hint in the open-closed interval (0.9, 1.0]. -/
theorem C10_local_hint :
    ∀ (region : String) (chId : Option String) (ccmap : String → Option String)
      (dl tl : Option String) (title desc : String) (hld : Bool) (p : ℚ),
      (channel_country_matches region chId ccmap = true →
        (compute_local_hint region chId ccmap dl tl title desc hld p).local_hint = 1.0) ∧
      (channel_country_matches region chId ccmap = false →
        (compute_local_hint region chId ccmap dl tl title desc hld p).local_hint ≤ 0.9) ∧
      (channel_country_matches region chId ccmap = false → truthyS dl = true →
        0.6 ≤ (compute_local_hint region chId ccmap dl tl title desc hld p).local_hint) ∧
      (channel_country_matches region chId ccmap = false →
        ¬(0.9 < (compute_local_hint region chId ccmap dl tl title desc hld p).local_hint ∧
          (compute_local_hint region chId ccmap dl tl title desc hld p).local_hint ≤ 1.0)) := by
  intro region chId ccmap dl tl title desc hld p
  by_cases h : channel_country_matches region chId ccmap = true
  · have hne : channel_country_matches region chId ccmap ≠ false := by
      rw [h]; decide
    have h1 : (compute_local_hint region chId ccmap dl tl title desc hld p).local_hint
        = 1.0 := by
      simp only [compute_local_hint, h]
      norm_num
    exact ⟨fun _ => h1, fun hf => absurd hf hne, fun hf _ => absurd hf hne,
      fun hf => absurd hf hne⟩
  · have hf : channel_country_matches region chId ccmap = false := by
      revert h
      cases channel_country_matches region chId ccmap <;> simp
    have hle : (compute_local_hint region chId ccmap dl tl title desc hld p).local_hint
        ≤ 0.9 := by
      simp only [compute_local_hint, hf]
      cases htr : truthyS dl <;> norm_num
    have hfloor : truthyS dl = true →
        0.6 ≤ (compute_local_hint region chId ccmap dl tl title desc hld p).local_hint := by
      intro hdl
      simp only [compute_local_hint, hf, hdl]
      norm_num [le_max_iff]
    exact ⟨fun ht => absurd ht (by rw [hf]; decide), fun _ => hle, fun _ => hfloor,
      fun _ hc => absurd hle (not_le.mpr hc.1)⟩

/-- Witness for C10 at concrete inputs: a matching channel country yields
hint 1.0; language evidence with a declared language stays within
[0.6, 0.9]. -/
theorem C10_local_hint_witness :
    (compute_local_hint "JP" (some "c1") (fun c => if c = "c1" then some "JP" else none)
      none none "title" "desc" false 0).local_hint = 1.0 ∧
    (compute_local_hint "JP" none (fun _ => none) (some "en") (some "ja")
      "title" "desc" true (1 / 2)).local_hint ≤ 0.9 ∧
    0.6 ≤ (compute_local_hint "JP" none (fun _ => none) (some "en") (some "ja")
      "title" "desc" true (1 / 2)).local_hint :=
  ⟨(C10_local_hint "JP" (some "c1") (fun c => if c = "c1" then some "JP" else none)
      none none "title" "desc" false 0).1 (by decide),
   (C10_local_hint "JP" none (fun _ => none) (some "en") (some "ja")
      "title" "desc" true (1 / 2)).2.1 (by decide),
   (C10_local_hint "JP" none (fun _ => none) (some "en") (some "ja")
      "title" "desc" true (1 / 2)).2.2.1 (by decide) (by decide)⟩

/-! ## Concept selection in main (src/region_demand.py, lines 311-323)

main selects concepts (an explicit --concept value, truthiness-checked,
or the round-robin pick) and then deduplicates the selection preserving
first occurrence order with the seen-set comprehension. The loaded
last_fetch map is in scope but is not consulted here: it is only read
later, per concept, to set the publishedAfter search window. -/

/-- The list of concepts main processes this run. -/
def concepts_processed (argConcept : Option String) (all_concepts : List String)
    (next_idx target_count : ℕ) : List String :=
  let concepts :=
    match argConcept with
    | some c =>
      if c = "" then (select_concepts_round_robin all_concepts next_idx target_count).1
      else [c]
    | none => (select_concepts_round_robin all_concepts next_idx target_count).1
  concepts.foldl append_new []

/-- Claim C9 counterexample: a concept whose last-fetch timestamp exists and
equals the current time, hence lies within any positive cooldown window,
is still selected and processed, with no force-override flag in play: the
code has no cooldown filtering at all. -/
theorem C9_no_cooldown_counterexample :
    (let lastFetch : String → Option ℤ := fun c => if c = "a" then some 1000 else none
     let now : ℤ := 1000
     let cooldownWindow : ℤ := 600
     ∃ t, lastFetch "a" = some t ∧ now - t ≤ cooldownWindow) ∧
    "a" ∈ concepts_processed none ["a", "b"] 0 6 := by
  constructor
  · exact ⟨1000, rfl, by norm_num⟩
  · decide

/-- Claim C9 amended: concept selection performs no cooldown filtering: it is a
function of the explicit concept argument, the concept list, the cursor
and the target count alone, so every concept picked by the round-robin is
processed this run regardless of its last-fetch timestamp, and an explicit
nonempty concept argument is processed unconditionally. -/
theorem C9_selection_ignores_last_fetch :
    (∀ (all_concepts : List String) (next_idx target_count : ℕ) (c : String),
      c ∈ (select_concepts_round_robin all_concepts next_idx target_count).1 →
      c ∈ concepts_processed none all_concepts next_idx target_count) ∧
    (∀ (c : String) (all_concepts : List String) (next_idx target_count : ℕ), c ≠ "" →
      concepts_processed (some c) all_concepts next_idx target_count = [c]) := by
  constructor
  · intro allc i tc c hc
    unfold concepts_processed
    rw [mem_foldl_append_new]
    exact Or.inr hc
  · intro c allc i tc hc
    simp [concepts_processed, hc, append_new]

/-- Witness for the amended C9 at concrete inputs. -/
theorem C9_selection_ignores_last_fetch_witness :
    "a" ∈ concepts_processed none ["a", "b"] 3 6 ∧
    concepts_processed (some "x") ["a", "b"] 3 6 = ["x"] :=
  ⟨C9_selection_ignores_last_fetch.1 ["a", "b"] 3 6 "a" (by decide),
   C9_selection_ignores_last_fetch.2 "x" ["a", "b"] 3 6 (by decide)⟩

/-! ## Scoring engine (src/region_demand.py, lines 227-262)

A video row carries the fields read by compute_scores_for_videos; the
occurrence dict and the per-region denominator dict are partial maps with
the .get defaults of the source. math.log10 is Real.logb 10. Every
exposed value is rounded with the Python round, 6 digits for the
intermediate scores and 8 for the final score. -/

structure VideoRow where
  videoId : String
  rank : ℤ
  viewCount : ℤ
  region : String
  local_hint : ℝ
  local_hint_source : String

structure ScoredRow where
  videoId : String
  region : String
  rank : ℤ
  viewCount : ℤ
  rank_score : ℝ
  popularity : ℝ
  local_hint : ℝ
  local_hint_source : String
  occurrence_count : ℤ
  uniqueness : ℝ
  inner_score : ℝ
  final_score : ℝ

/-- One scored row of compute_scores_for_videos. The denominator lookup
region_denom_log.get(region, 1.0) or 1.0 maps both a missing key and the
falsy stored value 0.0 to 1.0. -/
noncomputable def score_video (video_occurrence : String → Option ℤ) (N_regions : ℕ)
    (region_denom_log : String → Option ℝ) (trending_set : List String)
    (v : VideoRow) : ScoredRow :=
  let rank_clamped : ℤ := max 1 (min v.rank (MAX_RANK : ℤ))
  let rank_score : ℝ := ((MAX_RANK : ℝ) - (rank_clamped : ℝ) + 1) / (MAX_RANK : ℝ)
  let denom0 : ℝ := (region_denom_log v.region).getD 1.0
  let denom : ℝ := if denom0 = 0 then 1.0 else denom0
  let popularity : ℝ :=
    if v.viewCount ≤ 0 then 0.0
    else max 0.0 (min (Real.logb 10 ((v.viewCount : ℝ) + 1) / denom) 1.0)
  let occ : ℤ := (video_occurrence v.videoId).getD 0
  let uniqueness : ℝ := compute_uniqueness_tf_idf occ N_regions
  let inner : ℝ := W_RANK * rank_score + W_POP * popularity + W_LOCAL * v.local_hint
  let boost : ℝ := trend_boost v.videoId trending_set
  let final_score : ℝ := inner * uniqueness * boost
  { videoId := v.videoId
    region := v.region
    rank := v.rank
    viewCount := v.viewCount
    rank_score := pyRound 6 rank_score
    popularity := pyRound 6 popularity
    local_hint := pyRound 6 v.local_hint
    local_hint_source := v.local_hint_source
    occurrence_count := occ
    uniqueness := pyRound 6 uniqueness
    inner_score := pyRound 6 inner
    final_score := pyRound 8 final_score }

noncomputable def compute_scores_for_videos (video_rows : List VideoRow)
    (video_occurrence : String → Option ℤ) (N_regions : ℕ)
    (region_denom_log : String → Option ℝ) (trending_set : List String) :
    List ScoredRow :=
  video_rows.map (score_video video_occurrence N_regions region_denom_log trending_set)

theorem uniqueness_nonneg (occ : ℤ) (N : ℕ) : 0 ≤ compute_uniqueness_tf_idf occ N := by
  simp only [compute_uniqueness_tf_idf]
  split
  · norm_num
  · split
    · norm_num
    · have h0 : (0 : ℝ) ≤ 0.0 := by norm_num
      exact le_trans h0 (le_max_left _ _)

theorem uniqueness_le_one (occ : ℤ) (N : ℕ) : compute_uniqueness_tf_idf occ N ≤ 1 := by
  simp only [compute_uniqueness_tf_idf]
  split
  · norm_num
  · split
    · norm_num
    · rename_i hN hden
      have hden2 : 0 < Real.log ((N : ℝ) + 1) := not_le.mp hden
      apply max_le (by norm_num)
      rw [div_le_one hden2]
      apply Real.log_le_log
      · apply div_pos (by positivity)
        have hm : (0 : ℝ) ≤ ((max 0 occ : ℤ) : ℝ) := by
          exact_mod_cast le_max_left 0 occ
        linarith
      · apply div_le_self (by positivity)
        have hm : (0 : ℝ) ≤ ((max 0 occ : ℤ) : ℝ) := by
          exact_mod_cast le_max_left 0 occ
        linarith

theorem trend_boost_nonneg (vid : String) (ts : List String) :
    0 ≤ trend_boost vid ts := by
  unfold trend_boost
  split <;> norm_num

theorem rank_score_raw_bounds (r : ℤ) :
    0 ≤ ((MAX_RANK : ℝ) - ((max 1 (min r (MAX_RANK : ℤ)) : ℤ) : ℝ) + 1) / (MAX_RANK : ℝ) ∧
    ((MAX_RANK : ℝ) - ((max 1 (min r (MAX_RANK : ℤ)) : ℤ) : ℝ) + 1) / (MAX_RANK : ℝ) ≤ 1 := by
  have h1 : (1 : ℤ) ≤ max 1 (min r (MAX_RANK : ℤ)) := le_max_left _ _
  have h2 : max 1 (min r (MAX_RANK : ℤ)) ≤ (MAX_RANK : ℤ) := by
    apply max_le
    · norm_num [MAX_RANK]
    · exact min_le_right _ _
  set c : ℝ := ((max 1 (min r (MAX_RANK : ℤ)) : ℤ) : ℝ) with hc
  have h1R : (1 : ℝ) ≤ c := by rw [hc]; exact_mod_cast h1
  have h2R : c ≤ (MAX_RANK : ℝ) := by rw [hc]; exact_mod_cast h2
  have hM : (MAX_RANK : ℝ) = 10 := by norm_num [MAX_RANK]
  rw [hM] at h2R ⊢
  constructor
  · apply div_nonneg _ (by norm_num)
    linarith
  · rw [div_le_one (by norm_num)]
    linarith

theorem popularity_shape_bounds (b : Prop) [Decidable b] (x : ℝ) :
    0 ≤ (if b then (0.0 : ℝ) else max 0.0 (min x 1.0)) ∧
    (if b then (0.0 : ℝ) else max 0.0 (min x 1.0)) ≤ 1 := by
  split
  · norm_num
  · constructor
    · have h0 : (0 : ℝ) ≤ 0.0 := by norm_num
      exact le_trans h0 (le_max_left _ _)
    · apply max_le (by norm_num)
      exact le_trans (min_le_right _ _) (by norm_num)

/-- Claim C6 counterexample: the claimed bounds do not hold regardless of the
hint input: a row with local_hint = -10 (a value the assembly phase never
produces, but the claim quantifies over all hints) yields a strictly
negative final_score. -/
theorem C6_bounds_counterexample :
    (score_video (fun _ => none) 1 (fun _ => none) []
      ⟨"v", 1, 0, "A", -10, ""⟩).final_score < 0 ∧
    score_video (fun _ => none) 1 (fun _ => none) [] ⟨"v", 1, 0, "A", -10, ""⟩
      ∈ compute_scores_for_videos [⟨"v", 1, 0, "A", -10, ""⟩]
          (fun _ => none) 1 (fun _ => none) [] := by
  constructor
  · have hexpr : (score_video (fun _ => none) 1 (fun _ => none) []
        ⟨"v", 1, 0, "A", -10, ""⟩).final_score = pyRound 8 (-2.2) := by
      simp only [score_video, trend_boost]
      norm_num [compute_uniqueness_tf_idf, MAX_RANK, W_RANK, W_POP, W_LOCAL]
    rw [hexpr, pyRound_eq_of_mul 8 (-2.2) (-220000000) (by norm_num)]
    norm_num
  · simp [compute_scores_for_videos]

/-- Claim C6 amended: for every scored row whose input local_hint is nonnegative
(the assembly phase only produces hints in [0, 1], see the locality hint
theorems), the outputs satisfy 0 ≤ rank_score ≤ 1, 0 ≤ popularity ≤ 1,
0 ≤ uniqueness ≤ 1 and final_score ≥ 0, for all view counts, ranks,
occurrence maps and denominator maps. -/
theorem C6_score_bounds :
    ∀ (video_rows : List VideoRow) (video_occurrence : String → Option ℤ)
      (N_regions : ℕ) (region_denom_log : String → Option ℝ)
      (trending_set : List String),
      (∀ v ∈ video_rows, 0 ≤ v.local_hint) →
      ∀ s ∈ compute_scores_for_videos video_rows video_occurrence N_regions
          region_denom_log trending_set,
        0 ≤ s.rank_score ∧ s.rank_score ≤ 1 ∧
        0 ≤ s.popularity ∧ s.popularity ≤ 1 ∧
        0 ≤ s.uniqueness ∧ s.uniqueness ≤ 1 ∧
        0 ≤ s.final_score := by
  intro rows occmap N denom ts hhint s hs
  simp only [compute_scores_for_videos, List.mem_map] at hs
  obtain ⟨v, hv, rfl⟩ := hs
  have hhv := hhint v hv
  simp only [score_video]
  refine ⟨pyRound_nonneg _ _ (rank_score_raw_bounds v.rank).1,
    pyRound_le_one _ _ (rank_score_raw_bounds v.rank).2,
    pyRound_nonneg _ _ (popularity_shape_bounds _ _).1,
    pyRound_le_one _ _ (popularity_shape_bounds _ _).2,
    pyRound_nonneg _ _ (uniqueness_nonneg _ _),
    pyRound_le_one _ _ (uniqueness_le_one _ _),
    pyRound_nonneg _ _ ?_⟩
  have hrs := (rank_score_raw_bounds v.rank).1
  have hpop := (popularity_shape_bounds (v.viewCount ≤ 0)
    (Real.logb 10 ((v.viewCount : ℝ) + 1) /
      (if (denom v.region).getD 1.0 = 0 then 1.0
       else (denom v.region).getD 1.0))).1
  have hwr : (0 : ℝ) ≤ W_RANK := by norm_num [W_RANK]
  have hwp : (0 : ℝ) ≤ W_POP := by norm_num [W_POP]
  have hwl : (0 : ℝ) ≤ W_LOCAL := by norm_num [W_LOCAL]
  apply mul_nonneg
  apply mul_nonneg
  · exact add_nonneg (add_nonneg (mul_nonneg hwr hrs) (mul_nonneg hwp hpop))
      (mul_nonneg hwl hhv)
  · exact uniqueness_nonneg _ _
  · exact trend_boost_nonneg _ _

/-- Witness for the amended C6 at a concrete row with hint 0.5. -/
theorem C6_score_bounds_witness :
    0 ≤ (score_video (fun _ => none) 3 (fun _ => none) []
      ⟨"v", 1, 100, "A", 0.5, ""⟩).rank_score ∧
    (score_video (fun _ => none) 3 (fun _ => none) []
      ⟨"v", 1, 100, "A", 0.5, ""⟩).rank_score ≤ 1 ∧
    0 ≤ (score_video (fun _ => none) 3 (fun _ => none) []
      ⟨"v", 1, 100, "A", 0.5, ""⟩).popularity ∧
    (score_video (fun _ => none) 3 (fun _ => none) []
      ⟨"v", 1, 100, "A", 0.5, ""⟩).popularity ≤ 1 ∧
    0 ≤ (score_video (fun _ => none) 3 (fun _ => none) []
      ⟨"v", 1, 100, "A", 0.5, ""⟩).uniqueness ∧
    (score_video (fun _ => none) 3 (fun _ => none) []
      ⟨"v", 1, 100, "A", 0.5, ""⟩).uniqueness ≤ 1 ∧
    0 ≤ (score_video (fun _ => none) 3 (fun _ => none) []
      ⟨"v", 1, 100, "A", 0.5, ""⟩).final_score :=
  C6_score_bounds [⟨"v", 1, 100, "A", 0.5, ""⟩] (fun _ => none) 3 (fun _ => none) []
    (by
      intro w hw
      simp only [List.mem_singleton] at hw
      subst hw
      norm_num)
    (score_video (fun _ => none) 3 (fun _ => none) [] ⟨"v", 1, 100, "A", 0.5, ""⟩)
    (by simp [compute_scores_for_videos])

/-- Claim C2 counterexample: region A surfaces video v only via search and
region B surfaces v only via its trending fetch. The collection evaluates,
exactly, to top lists [("A", ["v"]), ("B", ["v"])] and the single trending
set ["v"]; v is absent from the trending fetch of A; and yet the trend
boost for the (v, A) row is 1.10. The last conjunct carries the boost
through the scoring function itself: scoring the region A row against the
trending set that the collection produced yields final_score
0.33 = 0.30 x 1.1, the boosted value. There the occurrence map is left
empty so that uniqueness is 1 and the boost factor is visible in
final_score; the boost term itself depends only on the video id and the
trending set (line 245). -/
theorem C2_trend_boost_counterexample :
    (collect_concept [("A", ⟨[["v"]], []⟩), ("B", ⟨[], ["v"]⟩)]).1
      = [("A", ["v"]), ("B", ["v"])] ∧
    (collect_concept [("A", ⟨[["v"]], []⟩), ("B", ⟨[], ["v"]⟩)]).2 = ["v"] ∧
    "v" ∉ (⟨[["v"]], []⟩ : RegionFetch).trendingResults ∧
    trend_boost "v" (collect_concept [("A", ⟨[["v"]], []⟩), ("B", ⟨[], ["v"]⟩)]).2
      = 1.10 ∧
    (score_video (fun _ => none) 2 (fun _ => none)
        (collect_concept [("A", ⟨[["v"]], []⟩), ("B", ⟨[], ["v"]⟩)]).2
        ⟨"v", 1, 0, "A", 0, ""⟩).final_score = 0.33 := by
  have h : (collect_concept [("A", ⟨[["v"]], []⟩), ("B", ⟨[], ["v"]⟩)]).2 = ["v"] := by
    decide
  refine ⟨by decide, h, by decide, ?_, ?_⟩
  · rw [h]
    norm_num [trend_boost]
  · rw [h]
    have hu : compute_uniqueness_tf_idf 0 2 = 1 := by
      simp only [compute_uniqueness_tf_idf]
      have hden : (0 : ℝ) < Real.log ((2 : ℕ) + 1) := by
        apply Real.log_pos
        norm_num
      rw [if_neg (by norm_num), if_neg (by push_cast at hden ⊢; linarith)]
      have harg : (((2 : ℕ) : ℝ) + 1) / (1 + ((max 0 (0 : ℤ) : ℤ) : ℝ))
          = ((2 : ℕ) : ℝ) + 1 := by
        norm_num
      rw [harg, div_self (by push_cast at hden ⊢; linarith)]
      norm_num
    simp only [score_video, trend_boost]
    norm_num [hu, MAX_RANK, W_RANK, W_POP, W_LOCAL]
    rw [pyRound_eq_of_mul 8 _ 33000000 (by norm_num)]
    norm_num

end RegionDemand
